import Mathlib

/- Formal model of celery_prometheus_exporter.py: the event ingestion and
   state reconciliation engine of the celery prometheus exporter, together
   with the queue sampler, the worker liveness sampler and the baseline
   metric reset.  Metric gauges are modelled as label-indexed partial maps
   (a label maps to none while its child series has never been created),
   histograms as lists of observations, and raising Python code as Except. -/

namespace CeleryExporter

/-- Task lifecycle states: the vocabulary of celery.states that the task
event stream can produce through TASK_EVENT_TO_STATE. -/
inductive TaskState where
  | PENDING
  | RECEIVED
  | STARTED
  | SUCCESS
  | FAILURE
  | RETRY
  | REVOKED
  | REJECTED
  deriving DecidableEq, Repr

/-- celery.states.READY_STATES membership: the terminal (ready) states. -/
def READY_STATES : TaskState → Bool
  | .SUCCESS => true
  | .FAILURE => true
  | .REVOKED => true
  | .REJECTED => true
  | _ => false

/-- celery.events.state.TASK_EVENT_TO_STATE: maps the task event subtype
(the part of the event type after the "task-" marker) to a lifecycle
state; an unknown subtype has no mapping (a KeyError in the source, which
the surrounding code does not catch). -/
def TASK_EVENT_TO_STATE : String → Option TaskState
  | "sent" => some .PENDING
  | "received" => some .RECEIVED
  | "started" => some .STARTED
  | "succeeded" => some .SUCCESS
  | "failed" => some .FAILURE
  | "retried" => some .RETRY
  | "revoked" => some .REVOKED
  | "rejected" => some .REJECTED
  | _ => none

/-- celery.states.ALL_STATES, the state vocabulary enumerated by the
baseline reset; it does not contain REJECTED. -/
def ALL_STATES : List TaskState :=
  [.PENDING, .RECEIVED, .STARTED, .SUCCESS, .FAILURE, .RETRY, .REVOKED]

/-- celery.events.group_from: the part of the event type before the first
dash (Python str.partition on the dash keeps the leading part; a type
without a dash is returned whole). -/
def group_from (type : String) : String :=
  String.mk (type.data.takeWhile (fun c => c != '-'))

/-- The Python slice type[5:]: the event type without its first five
characters, which strips the task- marker off a task event type. -/
def typeSuffix (type : String) : String :=
  String.mk (type.data.drop 5)

/-- A decoded broker event.  The type field is always present (the
interface contract of the event channel); uuid, local_received, runtime
and name are optional so that malformed events can be expressed. -/
structure Event where
  type : String
  uuid : Option String
  local_received : Option Int
  runtime : Option Int
  name : Option String
  deriving Repr

/-- Modelled from the spec: the TaskRecord kept by the bounded registry
(the celery event State object, whose code is not part of this
repository).  Field receivedAt of the spec is local_received here, the
name kept by the record is optional until an event supplies it. -/
structure TaskRecord where
  name : Option String
  state : TaskState
  local_received : Option Int
  deriving DecidableEq, Repr

/-- The registry content: association list id to record, oldest inserted
entry first. -/
abbrev Registry := List (String × TaskRecord)

/-- Lookup of a record by task id. -/
def lookupTask : Registry → String → Option TaskRecord
  | [], _ => none
  | (k, r) :: rest, u => if k = u then some r else lookupTask rest u

/-- Removal of a record by task id, returning the record and the registry
without it (dict.pop of the source); none when the id is absent. -/
def popTask : Registry → String → Option (TaskRecord × Registry)
  | [], _ => none
  | (k, r) :: rest, u =>
      if k = u then some (r, rest)
      else
        match popTask rest u with
        | none => none
        | some (r', rest') => some (r', (k, r) :: rest')

/-- Modelled from the spec: the field merge of the registry upsert on an
existing record: state is always overwritten, name and timestamp are set
only when the incoming event supplies them and never cleared. -/
def updatedRecord (evt : Event) (state : TaskState) (r : TaskRecord) :
    TaskRecord :=
  { name := match evt.name with
      | some n => some n
      | none => r.name
    state := state
    local_received := match evt.local_received with
      | some t => some t
      | none => r.local_received }

/-- Modelled from the spec: the record created for a task id seen for the
first time. -/
def newRecord (evt : Event) (state : TaskState) : TaskRecord :=
  { name := evt.name, state := state, local_received := evt.local_received }

/-- Modelled from the spec: create-or-update step of the registry upsert
(State._event of the celery library, absent from the sources): an
existing record is merged in place, a new id is appended newest-last and
the oldest entries are evicted while the capacity is exceeded; an event
without a uuid is dropped with no registry mutation. -/
def stateEvent (tasks : Registry) (maxTasks : Nat) (evt : Event)
    (state : TaskState) : Registry :=
  match evt.uuid with
  | none => tasks
  | some u =>
      match lookupTask tasks u with
      | some _ =>
          tasks.map (fun p =>
            if p.1 = u then (p.1, updatedRecord evt state p.2) else p)
      | none =>
          let grown := tasks ++ [(u, newRecord evt state)]
          grown.drop (grown.length - maxTasks)

/-- The mutable pieces of MonitorThread: the bounded registry together
with its capacity and the two known-label sets. -/
structure MonitorState where
  maxTasks : Nat
  tasks : Registry
  known_states : List TaskState
  known_states_names : List (TaskState × String)

/-- The exported metric surfaces.  A gauge maps a label tuple to none
while its child was never created and to its current value afterwards;
histograms are lists of observations, newest first. -/
structure Metrics where
  tasks_gauge : TaskState → Option Int
  tasks_name_gauge : TaskState × Option String → Option Int
  runtime_hist : Option String → List Int
  latency_hist : List Int
  workers : Int
  queue_size : String → Option Int
  queue_tasks : String × String → Option Int

/-- Setting a gauge child: labels(...).set(v). -/
def gset {α : Type} [DecidableEq α] (g : α → Option Int) (a : α) (v : Int) :
    α → Option Int :=
  fun x => if x = a then some v else g x

/-- Incrementing a gauge child: labels(...).inc(); a child that never
existed starts from zero. -/
def ginc {α : Type} [DecidableEq α] (g : α → Option Int) (a : α) :
    α → Option Int :=
  gset g a ((g a).getD 0 + 1)

/-- The numeric value a scrape reads for a label: zero when the child was
never created. -/
def gval {α : Type} (g : α → Option Int) (a : α) : Int :=
  (g a).getD 0

/-- MonitorThread._observe_latency: look up the previous record of the
event id (a missing uuid field or a missing record is a caught KeyError,
so nothing happens); when the previous state is RECEIVED, observe the
difference of the local_received timestamps into the latency histogram.
A missing timestamp on either side raises there without being caught,
modelled as error. -/
def observe_latency (st : MonitorState) (m : Metrics) (evt : Event) :
    Except Unit Metrics :=
  match evt.uuid with
  | none => .ok m
  | some u =>
      match lookupTask st.tasks u with
      | none => .ok m
      | some prev =>
          if prev.state = .RECEIVED then
            match evt.local_received, prev.local_received with
            | some t1, some t0 =>
                .ok { m with latency_hist := (t1 - t0) :: m.latency_hist }
            | _, _ => .error ()
          else .ok m

/-- MonitorThread._incr_ready_task: increment the per-state gauge, then
pop the record of the id from the registry; when the pop succeeds,
increment the per-state-and-name gauge with the popped name and, when the
event carries a runtime, observe it into the runtime histogram of that
name.  A missing uuid or a missing record is a caught KeyError, leaving
only the per-state increment. -/
def incr_ready_task (st : MonitorState) (m : Metrics) (evt : Event)
    (state : TaskState) : MonitorState × Metrics :=
  let m1 := { m with tasks_gauge := ginc m.tasks_gauge state }
  match evt.uuid with
  | none => (st, m1)
  | some u =>
      match popTask st.tasks u with
      | none => (st, m1)
      | some (event, rest) =>
          let st1 := { st with tasks := rest }
          let m2 := { m1 with
            tasks_name_gauge := ginc m1.tasks_name_gauge (state, event.name) }
          let m3 :=
            match evt.runtime with
            | some r =>
                { m2 with runtime_hist := fun n =>
                    if n = event.name then r :: m2.runtime_hist n
                    else m2.runtime_hist n }
            | none => m2
          (st1, m3)

/-- The multiset of states of the registry entries, as a list. -/
def statesOf (tasks : Registry) : List TaskState :=
  tasks.map (fun p => p.2.state)

/-- Counter over the registry states: how many tracked tasks are in the
given state. -/
def countState (tasks : Registry) (s : TaskState) : Nat :=
  (tasks.filter (fun p => p.2.state = s)).length

/-- The state-and-name pairs of the registry entries that carry a name. -/
def stateNamesOf (tasks : Registry) : List (TaskState × String) :=
  tasks.filterMap (fun p => p.2.name.map (fun n => (p.2.state, n)))

/-- Counter over the state-and-name pairs of named registry entries. -/
def countStateName (tasks : Registry) (sn : TaskState × String) : Nat :=
  ((stateNamesOf tasks).filter (fun x => x = sn)).length

/-- Set union in list form: add the members of the second list that the
first does not already hold, keeping order. -/
def unionAdd {α : Type} [DecidableEq α] (known : List α) (xs : List α) :
    List α :=
  xs.foldl (fun acc x => if x ∈ acc then acc else acc ++ [x]) known

/-- MonitorThread._collect_unready_tasks: add every state present in the
registry to the known-states set, then republish the per-state gauge for
every known state from the current counts; the same for the known
state-and-name pairs of named tasks. -/
def collect_unready_tasks (st : MonitorState) (m : Metrics) :
    MonitorState × Metrics :=
  let known := unionAdd st.known_states (statesOf st.tasks)
  let m1 := { m with tasks_gauge := fun s =>
      if s ∈ known then some ((countState st.tasks s : Nat) : Int)
      else m.tasks_gauge s }
  let knownN := unionAdd st.known_states_names (stateNamesOf st.tasks)
  let m2 := { m1 with tasks_name_gauge := fun sn =>
      match sn.2 with
      | some n =>
          if (sn.1, n) ∈ knownN then
            some ((countStateName st.tasks (sn.1, n) : Nat) : Int)
          else m1.tasks_name_gauge sn
      | none => m1.tasks_name_gauge sn }
  ({ st with known_states := known, known_states_names := knownN }, m2)

/-- MonitorThread._collect_tasks: a ready state goes through the terminal
increment path, any other state is upserted into the registry; both paths
finish with the unready aggregation. -/
def collect_tasks (st : MonitorState) (m : Metrics) (evt : Event)
    (state : TaskState) : MonitorState × Metrics :=
  let p :=
    if READY_STATES state then incr_ready_task st m evt state
    else ({ st with tasks := stateEvent st.tasks st.maxTasks evt state }, m)
  collect_unready_tasks p.1 p.2

/-- MonitorThread._process_event: ignore events outside the task group;
map the subtype to a state (an unknown subtype raises a KeyError that
only an AttributeError handler guards, modelled as error); observe
latency first when the state is STARTED; then collect. -/
def process_event (st : MonitorState) (m : Metrics) (evt : Event) :
    Except Unit (MonitorState × Metrics) :=
  if group_from evt.type = "task" then
    match TASK_EVENT_TO_STATE (typeSuffix evt.type) with
    | none => .error ()
    | some state =>
        match (if state = .STARTED then observe_latency st m evt
               else .ok m) with
        | .error e => .error e
        | .ok m1 => .ok (collect_tasks st m1 evt state)
  else .ok (st, m)

/-- One connection worth of event capture: events are handled in order;
a raising handler aborts the capture (the remaining events of this
connection are not processed). -/
def processEvents (st : MonitorState) (m : Metrics) :
    List Event → MonitorState × Metrics
  | [] => (st, m)
  | evt :: rest =>
      match process_event st m evt with
      | .ok (st1, m1) => processEvents st1 m1 rest
      | .error _ => (st, m)

/-- WorkerMonitoringThread.update_workers_count: a successful ping sets
the worker gauge to the number of responding workers; a raising ping is
caught and leaves the gauge untouched.  The ping outcome is the input:
some list of responders, or none for a raise. -/
def update_workers_count (m : Metrics) (ping : Option (List String)) :
    Metrics :=
  match ping with
  | some pong => { m with workers := (pong.length : Int) }
  | none => m

/-- QueueMonitoringThread.get_queue_names: append the name of every queue
descriptor of every worker node, in order, with no deduplication.  The
input is the active_queues introspection result, one list of queue names
per worker node. -/
def get_queue_names (active_queues : List (List String)) : List String :=
  active_queues.foldl (fun names node => names ++ node) []

/-- Lookup in an association list of per-task counts. -/
def countOf : List (String × Nat) → String → Option Nat
  | [], _ => none
  | (k, c) :: rest, n => if k = n then some c else countOf rest n

/-- One tally step of the defaultdict in get_tasks_stat. -/
def tally : List (String × Nat) → String → List (String × Nat)
  | [], n => [(n, 1)]
  | (k, c) :: rest, n =>
      if k = n then (k, c + 1) :: rest else (k, c) :: tally rest n

/-- QueueMonitoringThread.get_tasks_stat: tally the queued payloads by
task name; a payload that does not decode or has no task header (modelled
as none) contributes nothing. -/
def get_tasks_stat (tasks : List (Option String)) : List (String × Nat) :=
  tasks.foldl (fun acc t =>
    match t with
    | some n => tally acc n
    | none => acc) []

/-- The stale-series zeroing of _reset_metrics with a known-labels set:
every existing child whose labels are not in the known set is set to
zero, the rest keep their value. -/
def resetKnown {α : Type} [DecidableEq α] (g : α → Option Int)
    (known : List α) : α → Option Int :=
  fun x =>
    match g x with
    | none => none
    | some v => if x ∈ known then some v else some 0

/-- The unconditional zeroing of _reset_metrics without a known-labels
set: every existing child is set to zero. -/
def resetAll {α : Type} (g : α → Option Int) : α → Option Int :=
  fun x =>
    match g x with
    | none => none
    | some _ => some 0

/-- The per-queue loop body of update_queues_metrics: set the queue size
gauge, set the per-task gauges from the tally of the queue payloads, and
record the label tuples published in this pass.  The broker reads are the
inputs qlen and qitems (the pipelined llen and lrange answers per queue
name). -/
def update_queues_loop (qlen : String → Nat)
    (qitems : String → List (Option String)) :
    List String → Metrics → List String → List (String × String) →
    Metrics × List String × List (String × String)
  | [], m, kq, kt => (m, kq, kt)
  | name :: rest, m, kq, kt =>
      let m1 := { m with queue_size := gset m.queue_size name (qlen name) }
      let stat := get_tasks_stat (qitems name)
      let g2 := stat.foldl (fun g tc => gset g (name, tc.1) (tc.2 : Int))
        m1.queue_tasks
      let m2 := { m1 with queue_tasks := g2 }
      update_queues_loop qlen qitems rest m2 (kq ++ [name])
        (kt ++ stat.map (fun tc => (name, tc.1)))

/-- QueueMonitoringThread.update_queues_metrics: walk the queue names
from the broker introspection, publish sizes and per-task counts while
collecting the published label tuples, then zero every stale queue and
queue-task series absent from this pass. -/
def update_queues_metrics (m : Metrics) (active_queues : List (List String))
    (qlen : String → Nat) (qitems : String → List (Option String)) :
    Metrics :=
  let queue_names := get_queue_names active_queues
  let r := update_queues_loop qlen qitems queue_names m [] []
  let m1 := { r.1 with queue_size := resetKnown r.1.queue_size r.2.1 }
  { m1 with queue_tasks := resetKnown m1.queue_tasks r.2.2 }

/-- setup_metrics: set the worker gauge to zero; when introspection
succeeds (some list of registered task names), set the per-state gauge to
zero for every state of ALL_STATES and the per-state-and-name gauge to
zero for every such state paired with every registered name; when
introspection raises (none), zero every existing child of both task
gauges instead. -/
def setup_metrics (m : Metrics) (introspection : Option (List String)) :
    Metrics :=
  let m0 := { m with workers := 0 }
  match introspection with
  | none =>
      let m1 := { m0 with tasks_gauge := resetAll m0.tasks_gauge }
      { m1 with tasks_name_gauge := resetAll m1.tasks_name_gauge }
  | some registered =>
      let m1 := { m0 with tasks_gauge := fun s =>
          if s ∈ ALL_STATES then some 0 else m0.tasks_gauge s }
      { m1 with tasks_name_gauge := fun sn =>
          match sn.2 with
          | some n =>
              if sn.1 ∈ ALL_STATES ∧ n ∈ registered then some 0
              else m1.tasks_name_gauge sn
          | none => m1.tasks_name_gauge sn }

/-- Unfolding step of unionAdd. -/
theorem unionAdd_cons {α : Type} [DecidableEq α] (k : List α) (x : α)
    (xs : List α) :
    unionAdd k (x :: xs) = unionAdd (if x ∈ k then k else k ++ [x]) xs := rfl

/-- Membership in the list union. -/
theorem mem_unionAdd {α : Type} [DecidableEq α] (k xs : List α) (a : α) :
    a ∈ unionAdd k xs ↔ a ∈ k ∨ a ∈ xs := by
  induction xs generalizing k with
  | nil => simp [unionAdd]
  | cons x xs ih =>
      rw [unionAdd_cons, ih]
      by_cases hx : x ∈ k
      · rw [if_pos hx]
        constructor
        · rintro (h | h)
          · exact Or.inl h
          · exact Or.inr (List.mem_cons_of_mem x h)
        · rintro (h | h)
          · exact Or.inl h
          · rcases List.mem_cons.mp h with rfl | h
            · exact Or.inl hx
            · exact Or.inr h
      · rw [if_neg hx]
        constructor
        · rintro (h | h)
          · rcases List.mem_append.mp h with h | h
            · exact Or.inl h
            · exact Or.inr (List.mem_cons.mpr (Or.inl (List.mem_singleton.mp h)))
          · exact Or.inr (List.mem_cons_of_mem x h)
        · rintro (h | h)
          · exact Or.inl (List.mem_append.mpr (Or.inl h))
          · rcases List.mem_cons.mp h with rfl | h
            · exact Or.inl (List.mem_append.mpr (Or.inr (List.mem_singleton.mpr rfl)))
            · exact Or.inr h

/-- The pop fails exactly when the lookup fails. -/
theorem popTask_eq_none {l : Registry} {u : String} :
    popTask l u = none ↔ lookupTask l u = none := by
  induction l with
  | nil => simp [popTask, lookupTask]
  | cons p rest ih =>
      obtain ⟨k, r⟩ := p
      by_cases hk : k = u
      · simp [popTask, lookupTask, hk]
      · simp only [popTask, lookupTask, if_neg hk]
        cases h : popTask rest u with
        | none => simp [ih.mp h]
        | some pr => simp [← ih, h]

/-- The lookup fails exactly when the id is not among the keys. -/
theorem lookupTask_eq_none_iff {l : Registry} {u : String} :
    lookupTask l u = none ↔ u ∉ l.map Prod.fst := by
  induction l with
  | nil => simp [lookupTask]
  | cons p rest ih =>
      obtain ⟨k, r⟩ := p
      by_cases hk : k = u
      · simp [lookupTask, hk]
      · simp only [lookupTask, if_neg hk, ih, List.map_cons, List.mem_cons,
          not_or]
        constructor
        · intro h
          exact ⟨fun hh => hk hh.symm, h⟩
        · intro h
          exact h.2

/-- A successful lookup yields a successful pop of the same record. -/
theorem popTask_of_lookup {l : Registry} {u : String} {r : TaskRecord}
    (h : lookupTask l u = some r) :
    ∃ rest, popTask l u = some (r, rest) := by
  induction l with
  | nil => simp [lookupTask] at h
  | cons p tail ih =>
      obtain ⟨k, r0⟩ := p
      by_cases hk : k = u
      · simp only [lookupTask, if_pos hk] at h
        exact ⟨tail, by simp only [popTask, if_pos hk, Option.some.injEq,
          Prod.mk.injEq] at h ⊢; exact ⟨h, trivial⟩⟩
      · simp only [lookupTask, if_neg hk] at h
        obtain ⟨rest, hrest⟩ := ih h
        exact ⟨(k, r0) :: rest, by simp [popTask, if_neg hk, hrest]⟩

/-- The registry after a pop is a sublist of the registry before. -/
theorem popTask_sublist {l rest : Registry} {u : String} {r : TaskRecord}
    (h : popTask l u = some (r, rest)) : rest.Sublist l := by
  induction l generalizing rest with
  | nil => simp [popTask] at h
  | cons p tail ih =>
      obtain ⟨k, r0⟩ := p
      by_cases hk : k = u
      · simp only [popTask, if_pos hk, Option.some.injEq, Prod.mk.injEq] at h
        rw [← h.2]
        exact List.sublist_cons_self _ _
      · simp only [popTask, if_neg hk] at h
        cases hrec : popTask tail u with
        | none => rw [hrec] at h; simp at h
        | some pr =>
            obtain ⟨r1, rest1⟩ := pr
            rw [hrec] at h
            simp only [Option.some.injEq, Prod.mk.injEq] at h
            obtain ⟨h1, h2⟩ := h
            rw [← h2]
            refine List.Sublist.cons₂ _ (ih ?_)
            rw [hrec, h1]

/-- A pop removes exactly one entry. -/
theorem popTask_length {l rest : Registry} {u : String} {r : TaskRecord}
    (h : popTask l u = some (r, rest)) : l.length = rest.length + 1 := by
  induction l generalizing rest with
  | nil => simp [popTask] at h
  | cons p tail ih =>
      obtain ⟨k, r0⟩ := p
      by_cases hk : k = u
      · simp only [popTask, if_pos hk, Option.some.injEq, Prod.mk.injEq] at h
        rw [← h.2]
        simp
      · simp only [popTask, if_neg hk] at h
        cases hrec : popTask tail u with
        | none => rw [hrec] at h; simp at h
        | some pr =>
            obtain ⟨r1, rest1⟩ := pr
            rw [hrec] at h
            simp only [Option.some.injEq, Prod.mk.injEq] at h
            obtain ⟨h1, h2⟩ := h
            rw [← h2]
            simp [ih (by rw [hrec, h1])]

/-- After popping an id out of a registry with distinct keys, the id is
gone from the keys. -/
theorem popTask_not_mem_keys {l rest : Registry} {u : String}
    {r : TaskRecord} (hnd : (l.map Prod.fst).Nodup)
    (h : popTask l u = some (r, rest)) : u ∉ rest.map Prod.fst := by
  induction l generalizing rest with
  | nil => simp [popTask] at h
  | cons p tail ih =>
      obtain ⟨k, r0⟩ := p
      simp only [List.map_cons, List.nodup_cons] at hnd
      by_cases hk : k = u
      · simp only [popTask, if_pos hk, Option.some.injEq, Prod.mk.injEq] at h
        rw [← h.2]
        rw [← hk]
        exact hnd.1
      · simp only [popTask, if_neg hk] at h
        cases hrec : popTask tail u with
        | none => rw [hrec] at h; simp at h
        | some pr =>
            obtain ⟨r1, rest1⟩ := pr
            rw [hrec] at h
            simp only [Option.some.injEq, Prod.mk.injEq] at h
            obtain ⟨h1, h2⟩ := h
            rw [← h2]
            simp only [List.map_cons, List.mem_cons]
            rintro (hh | hh)
            · exact hk hh.symm
            · exact ih hnd.2 (by rw [hrec, h1]) hh

/-- The invariant the monitor maintains: registry keys are distinct, every
tracked record and every known label carries a non-terminal state, and
the registry respects its capacity. -/
structure Inv (st : MonitorState) : Prop where
  keys_nodup : (st.tasks.map Prod.fst).Nodup
  tasks_unready : ∀ p ∈ st.tasks, READY_STATES p.2.state = false
  known_unready : ∀ s ∈ st.known_states, READY_STATES s = false
  known_names_unready :
    ∀ sn ∈ st.known_states_names, READY_STATES sn.1 = false
  len_le : st.tasks.length ≤ st.maxTasks

/-- A state-and-name pair of the registry comes from a named record. -/
theorem mem_stateNamesOf {tasks : Registry} {sn : TaskState × String}
    (h : sn ∈ stateNamesOf tasks) :
    ∃ p ∈ tasks, p.2.state = sn.1 ∧ p.2.name = some sn.2 := by
  simp only [stateNamesOf, List.mem_filterMap] at h
  obtain ⟨p, hp, hmap⟩ := h
  cases hname : p.2.name with
  | none => rw [hname] at hmap; simp at hmap
  | some n =>
      rw [hname] at hmap
      simp only [Option.map_some'] at hmap
      rw [Option.some.injEq] at hmap
      subst hmap
      exact ⟨p, hp, rfl, hname⟩

/-- The unready aggregation does not touch the registry. -/
theorem collect_unready_tasks_fst (st : MonitorState) (m : Metrics) :
    (collect_unready_tasks st m).1.tasks = st.tasks := rfl

/-- The unready aggregation does not touch the latency histogram. -/
theorem collect_unready_latency (st : MonitorState) (m : Metrics) :
    (collect_unready_tasks st m).2.latency_hist = m.latency_hist := rfl

/-- The unready aggregation does not touch the runtime histogram. -/
theorem collect_unready_runtime (st : MonitorState) (m : Metrics) :
    (collect_unready_tasks st m).2.runtime_hist = m.runtime_hist := rfl

/-- The unready aggregation leaves every terminal per-state gauge alone:
terminal states never enter the known-states set. -/
theorem collect_unready_gauge_ready (st : MonitorState) (m : Metrics)
    (s : TaskState) (hs : READY_STATES s = true)
    (hknown : ∀ x ∈ st.known_states, READY_STATES x = false)
    (htasks : ∀ p ∈ st.tasks, READY_STATES p.2.state = false) :
    (collect_unready_tasks st m).2.tasks_gauge s = m.tasks_gauge s := by
  show (if s ∈ unionAdd st.known_states (statesOf st.tasks)
    then some ((countState st.tasks s : Nat) : Int)
    else m.tasks_gauge s) = m.tasks_gauge s
  rw [if_neg]
  intro hmem
  rcases (mem_unionAdd _ _ _).mp hmem with h | h
  · rw [hknown s h] at hs
    exact Bool.false_ne_true hs
  · obtain ⟨p, hp, hps⟩ := List.mem_map.mp h
    rw [← hps, htasks p hp] at hs
    exact Bool.false_ne_true hs

/-- The unready aggregation leaves every terminal per-state-and-name
gauge alone: terminal states never enter the known pairs set. -/
theorem collect_unready_name_gauge_ready (st : MonitorState) (m : Metrics)
    (s : TaskState) (nm : Option String) (hs : READY_STATES s = true)
    (hknownN : ∀ sn ∈ st.known_states_names, READY_STATES sn.1 = false)
    (htasks : ∀ p ∈ st.tasks, READY_STATES p.2.state = false) :
    (collect_unready_tasks st m).2.tasks_name_gauge (s, nm)
      = m.tasks_name_gauge (s, nm) := by
  cases nm with
  | none => rfl
  | some n =>
      show (if (s, n) ∈ unionAdd st.known_states_names (stateNamesOf st.tasks)
        then some ((countStateName st.tasks (s, n) : Nat) : Int)
        else m.tasks_name_gauge (s, some n)) = m.tasks_name_gauge (s, some n)
      rw [if_neg]
      intro hmem
      rcases (mem_unionAdd _ _ _).mp hmem with h | h
      · rw [hknownN (s, n) h] at hs
        exact Bool.false_ne_true hs
      · obtain ⟨p, hp, h1, h2⟩ := mem_stateNamesOf h
        have h1s : p.2.state = s := h1
        rw [← h1s, htasks p hp] at hs
        exact Bool.false_ne_true hs

/-- The unready aggregation preserves the invariant. -/
theorem collect_unready_inv (st : MonitorState) (m : Metrics)
    (hInv : Inv st) : Inv (collect_unready_tasks st m).1 := by
  constructor
  · exact hInv.keys_nodup
  · exact hInv.tasks_unready
  · intro s hs
    rcases (mem_unionAdd _ _ _).mp hs with h | h
    · exact hInv.known_unready s h
    · obtain ⟨p, hp, hps⟩ := List.mem_map.mp h
      rw [← hps]
      exact hInv.tasks_unready p hp
  · intro sn hsn
    rcases (mem_unionAdd _ _ _).mp hsn with h | h
    · exact hInv.known_names_unready sn h
    · obtain ⟨p, hp, h1, h2⟩ := mem_stateNamesOf h
      rw [← h1]
      exact hInv.tasks_unready p hp
  · exact hInv.len_le

/-- The registry upsert respects the capacity bound. -/
theorem stateEvent_len (tasks : Registry) (maxTasks : Nat) (evt : Event)
    (s : TaskState) (hlen : tasks.length ≤ maxTasks) :
    (stateEvent tasks maxTasks evt s).length ≤ maxTasks := by
  unfold stateEvent
  split
  · exact hlen
  · split
    · simpa using hlen
    · simp only [List.length_drop, List.length_append, List.length_cons,
        List.length_nil]
      omega

/-- The registry upsert keeps registry keys distinct. -/
theorem stateEvent_keys_nodup (tasks : Registry) (maxTasks : Nat)
    (evt : Event) (s : TaskState) (hnd : (tasks.map Prod.fst).Nodup) :
    ((stateEvent tasks maxTasks evt s).map Prod.fst).Nodup := by
  unfold stateEvent
  split
  · exact hnd
  · rename_i u _
    split
    · rw [List.map_map]
      have hemb : List.map (Prod.fst ∘ (fun p : String × TaskRecord =>
          if p.1 = u then (p.1, updatedRecord evt s p.2) else p)) tasks
            = List.map Prod.fst tasks := by
        refine List.map_congr_left ?_
        intro p _
        simp only [Function.comp_apply]
        split <;> rfl
      rw [hemb]
      exact hnd
    · rename_i hlook
      have hkeys : ((tasks ++ [(u, newRecord evt s)]).map Prod.fst).Nodup := by
        rw [List.map_append, List.nodup_append]
        refine ⟨hnd, List.nodup_singleton _, ?_⟩
        intro a ha hb
        simp only [List.map_cons, List.map_nil, List.mem_singleton] at hb
        rw [hb] at ha
        exact (lookupTask_eq_none_iff.mp hlook) ha
      refine hkeys.sublist ?_
      exact List.Sublist.map _ (List.drop_sublist _ _)

/-- The registry upsert of a non-terminal state keeps every record
non-terminal. -/
theorem stateEvent_unready (tasks : Registry) (maxTasks : Nat) (evt : Event)
    (s : TaskState) (hs : READY_STATES s = false)
    (htasks : ∀ p ∈ tasks, READY_STATES p.2.state = false) :
    ∀ p ∈ stateEvent tasks maxTasks evt s,
      READY_STATES p.2.state = false := by
  unfold stateEvent
  split
  · exact htasks
  · rename_i u _
    split
    · intro p hp
      obtain ⟨q, hq, hqp⟩ := List.mem_map.mp hp
      rw [← hqp]
      split
      · exact hs
      · exact htasks q hq
    · intro p hp
      have hp2 : p ∈ tasks ++ [(u, newRecord evt s)] :=
        List.mem_of_mem_drop hp
      rcases List.mem_append.mp hp2 with h | h
      · exact htasks p h
      · rw [List.mem_singleton.mp h]
        exact hs

/-- The terminal increment path preserves the invariant. -/
theorem incr_ready_inv (st : MonitorState) (m : Metrics) (evt : Event)
    (s : TaskState) (hInv : Inv st) : Inv (incr_ready_task st m evt s).1 := by
  simp only [incr_ready_task]
  split
  · exact hInv
  · split
    · exact hInv
    · rename_i hpop
      have hsub := popTask_sublist hpop
      have hlen := popTask_length hpop
      constructor
      · exact hInv.keys_nodup.sublist (List.Sublist.map _ hsub)
      · intro p hp
        exact hInv.tasks_unready p (hsub.subset hp)
      · exact hInv.known_unready
      · exact hInv.known_names_unready
      · have := hInv.len_le
        simp only []
        omega

/-- The whole collect step preserves the invariant, whatever the state of
the incoming event. -/
theorem collect_tasks_inv (st : MonitorState) (m : Metrics) (evt : Event)
    (s : TaskState) (hInv : Inv st) : Inv (collect_tasks st m evt s).1 := by
  simp only [collect_tasks]
  refine collect_unready_inv _ _ ?_
  split
  · exact incr_ready_inv st m evt s hInv
  · rename_i hr
    constructor
    · exact stateEvent_keys_nodup _ _ _ _ hInv.keys_nodup
    · exact stateEvent_unready _ _ _ _ (by simpa using hr) hInv.tasks_unready
    · exact hInv.known_unready
    · exact hInv.known_names_unready
    · exact stateEvent_len _ _ _ _ hInv.len_le

/-- Event processing preserves the invariant. -/
theorem inv_process_event {st : MonitorState} {m : Metrics} {evt : Event}
    {st1 : MonitorState} {m1 : Metrics} (hInv : Inv st)
    (h : process_event st m evt = .ok (st1, m1)) : Inv st1 := by
  unfold process_event at h
  split at h
  · split at h
    · simp at h
    · rename_i s hmap
      split at h
      · simp at h
      · rename_i m2 hobs
        simp only [Except.ok.injEq] at h
        have hres := collect_tasks_inv st m2 evt s hInv
        rw [h] at hres
        exact hres
  · simp only [Except.ok.injEq, Prod.mk.injEq] at h
    rw [← h.1]
    exact hInv

/-- A successful latency observation only touches the latency histogram. -/
theorem observe_latency_ok {st : MonitorState} {m : Metrics} {evt : Event}
    {m2 : Metrics} (h : observe_latency st m evt = .ok m2) :
    m2.tasks_gauge = m.tasks_gauge
      ∧ m2.tasks_name_gauge = m.tasks_name_gauge
      ∧ m2.runtime_hist = m.runtime_hist := by
  unfold observe_latency at h
  split at h
  · simp only [Except.ok.injEq] at h
    rw [← h]
    exact ⟨rfl, rfl, rfl⟩
  · split at h
    · simp only [Except.ok.injEq] at h
      rw [← h]
      exact ⟨rfl, rfl, rfl⟩
    · split at h
      · split at h
        · simp only [Except.ok.injEq] at h
          rw [← h]
          exact ⟨rfl, rfl, rfl⟩
        · simp at h
      · simp only [Except.ok.injEq] at h
        rw [← h]
        exact ⟨rfl, rfl, rfl⟩

/-- The terminal increment path puts exactly one increment on the
per-state gauge. -/
theorem incr_ready_gauge (st : MonitorState) (m : Metrics) (evt : Event)
    (s : TaskState) :
    (incr_ready_task st m evt s).2.tasks_gauge = ginc m.tasks_gauge s := by
  simp only [incr_ready_task]
  split
  · rfl
  · split
    · rfl
    · split <;> rfl

/-- The terminal increment path does not touch the latency histogram. -/
theorem incr_ready_latency (st : MonitorState) (m : Metrics) (evt : Event)
    (s : TaskState) :
    (incr_ready_task st m evt s).2.latency_hist = m.latency_hist := by
  simp only [incr_ready_task]
  split
  · rfl
  · split
    · rfl
    · split <;> rfl

/-- The collect step never touches the latency histogram. -/
theorem collect_tasks_latency (st : MonitorState) (m : Metrics) (evt : Event)
    (s : TaskState) :
    (collect_tasks st m evt s).2.latency_hist = m.latency_hist := by
  simp only [collect_tasks]
  rw [collect_unready_latency]
  split
  · exact incr_ready_latency st m evt s
  · rfl

/-- What one collect step does to a terminal per-state gauge: exactly one
increment when the event state is that terminal state, nothing at all
otherwise. -/
theorem collect_tasks_gauge_ready (st : MonitorState) (m : Metrics)
    (evt : Event) (s s0 : TaskState) (hInv : Inv st)
    (h0 : READY_STATES s0 = true) :
    (collect_tasks st m evt s).2.tasks_gauge s0
      = if READY_STATES s = true ∧ s = s0
        then some (gval m.tasks_gauge s0 + 1)
        else m.tasks_gauge s0 := by
  simp only [collect_tasks]
  split
  · rename_i hr
    have hInv2 := incr_ready_inv st m evt s hInv
    rw [collect_unready_gauge_ready _ _ _ h0 hInv2.known_unready
      hInv2.tasks_unready]
    rw [incr_ready_gauge]
    by_cases hss : s = s0
    · rw [if_pos ⟨hr, hss⟩, hss]
      simp [ginc, gset, gval]
    · rw [if_neg (fun hc : READY_STATES s = true ∧ s = s0 => hss hc.2)]
      simp only [ginc, gset]
      rw [if_neg (fun h : s0 = s => hss h.symm)]
  · rename_i hr
    have hr2 : READY_STATES s = false := by simpa using hr
    have hInv2 : Inv
        { st with tasks := stateEvent st.tasks st.maxTasks evt s } := by
      constructor
      · exact stateEvent_keys_nodup _ _ _ _ hInv.keys_nodup
      · exact stateEvent_unready _ _ _ _ hr2 hInv.tasks_unready
      · exact hInv.known_unready
      · exact hInv.known_names_unready
      · exact stateEvent_len _ _ _ _ hInv.len_le
    rw [collect_unready_gauge_ready _ _ _ h0 hInv2.known_unready
      hInv2.tasks_unready]
    rw [if_neg]
    rintro ⟨hc, _⟩
    rw [hc] at hr2
    exact absurd hr2 (by simp)

/-- Event processing keeps the configured capacity. -/
theorem process_event_maxTasks {st : MonitorState} {m : Metrics}
    {evt : Event} {st1 : MonitorState} {m1 : Metrics}
    (h : process_event st m evt = .ok (st1, m1)) :
    st1.maxTasks = st.maxTasks := by
  unfold process_event at h
  split at h
  · split at h
    · simp at h
    · rename_i s hmap
      split at h
      · simp at h
      · rename_i m2 hobs
        simp only [Except.ok.injEq] at h
        have hcoll : (collect_tasks st m2 evt s).1.maxTasks = st.maxTasks := by
          simp only [collect_tasks]
          show (if READY_STATES s = true then incr_ready_task st m2 evt s
            else ({ st with
              tasks := stateEvent st.tasks st.maxTasks evt s }, m2)).1.maxTasks
              = st.maxTasks
          split
          · simp only [incr_ready_task]
            split
            · rfl
            · split
              · rfl
              · rfl
          · rfl
        rw [h] at hcoll
        exact hcoll
  · simp only [Except.ok.injEq, Prod.mk.injEq] at h
    rw [← h.1]

/-- One processed event never decreases a terminal per-state gauge. -/
theorem process_event_gauge_ready_mono {st : MonitorState} {m : Metrics}
    {evt : Event} {st1 : MonitorState} {m1 : Metrics} (hInv : Inv st)
    (s0 : TaskState) (h0 : READY_STATES s0 = true)
    (h : process_event st m evt = .ok (st1, m1)) :
    gval m.tasks_gauge s0 ≤ gval m1.tasks_gauge s0 := by
  unfold process_event at h
  split at h
  · split at h
    · simp at h
    · rename_i s hmap
      split at h
      · simp at h
      · rename_i m2 hobs
        simp only [Except.ok.injEq] at h
        have hg2 : m2.tasks_gauge = m.tasks_gauge := by
          by_cases hs : s = .STARTED
          · rw [if_pos hs] at hobs
            exact (observe_latency_ok hobs).1
          · rw [if_neg hs] at hobs
            simp only [Except.ok.injEq] at hobs
            rw [← hobs]
        have hc := collect_tasks_gauge_ready st m2 evt s s0 hInv h0
        have hm1 := congrArg (fun p : MonitorState × Metrics =>
          p.2.tasks_gauge s0) h
        simp only [] at hm1
        rw [hc, hg2] at hm1
        split at hm1
        · simp only [gval]
          rw [← hm1]
          simp only [Option.getD_some, gval]
          linarith
        · simp only [gval]
          rw [← hm1]
  · simp only [Except.ok.injEq, Prod.mk.injEq] at h
    rw [← h.2]

/-- Along one capture, terminal per-state gauges never decrease. -/
theorem processEvents_gauge_ready_mono (events : List Event)
    (st : MonitorState) (m : Metrics) (hInv : Inv st) (s0 : TaskState)
    (h0 : READY_STATES s0 = true) :
    gval m.tasks_gauge s0
      ≤ gval (processEvents st m events).2.tasks_gauge s0 := by
  induction events generalizing st m with
  | nil => exact le_refl _
  | cons evt rest ih =>
      unfold processEvents
      cases h : process_event st m evt with
      | ok p =>
          obtain ⟨st1, m1⟩ := p
          calc gval m.tasks_gauge s0
              ≤ gval m1.tasks_gauge s0 :=
                process_event_gauge_ready_mono hInv s0 h0 h
            _ ≤ _ := ih st1 m1 (inv_process_event hInv h)
      | error e => exact le_refl _

/-- Without a uuid, the terminal path only increments the per-state
gauge. -/
theorem incr_ready_none_uuid (st : MonitorState) (m : Metrics) (evt : Event)
    (s : TaskState) (huuid : evt.uuid = none) :
    incr_ready_task st m evt s
      = (st, { m with tasks_gauge := ginc m.tasks_gauge s }) := by
  simp only [incr_ready_task, huuid]

/-- Without a uuid, the registry upsert is a no-op. -/
theorem stateEvent_none_uuid (tasks : Registry) (maxTasks : Nat)
    (evt : Event) (s : TaskState) (huuid : evt.uuid = none) :
    stateEvent tasks maxTasks evt s = tasks := by
  simp only [stateEvent, huuid]

/-- A non-terminal upsert keeps the invariant of the surrounding monitor
state. -/
theorem stateEvent_inv (st : MonitorState) (evt : Event) (s : TaskState)
    (hr2 : READY_STATES s = false) (hInv : Inv st) :
    Inv { st with tasks := stateEvent st.tasks st.maxTasks evt s } := by
  constructor
  · exact stateEvent_keys_nodup _ _ _ _ hInv.keys_nodup
  · exact stateEvent_unready _ _ _ _ hr2 hInv.tasks_unready
  · exact hInv.known_unready
  · exact hInv.known_names_unready
  · exact stateEvent_len _ _ _ _ hInv.len_le

/-- An empty metric surface: no gauge child exists yet, histograms are
empty, the worker gauge reads zero. -/
def mEmpty : Metrics :=
  { tasks_gauge := fun _ => none, tasks_name_gauge := fun _ => none,
    runtime_hist := fun _ => [], latency_hist := [], workers := 0,
    queue_size := fun _ => none, queue_tasks := fun _ => none }

/-- A fresh monitor state with capacity ten. -/
def stEmpty : MonitorState :=
  { maxTasks := 10, tasks := [], known_states := [],
    known_states_names := [] }

/-- The fresh monitor state satisfies the invariant. -/
theorem inv_stEmpty : Inv stEmpty := by
  constructor <;> simp [stEmpty]

/-- C9: along any sequence of processed events the per-state gauge of
each terminal state never decreases; the unready aggregation overwrite
never writes a terminal label, and processing only ever puts non-terminal
states into the known-states set. -/
theorem spec_c9_terminal_monotonic :
    (∀ events st m s, Inv st → READY_STATES s = true →
      gval m.tasks_gauge s
        ≤ gval (processEvents st m events).2.tasks_gauge s)
    ∧ (∀ st m s, READY_STATES s = true →
        (∀ x ∈ st.known_states, READY_STATES x = false) →
        (∀ p ∈ st.tasks, READY_STATES p.2.state = false) →
        (collect_unready_tasks st m).2.tasks_gauge s = m.tasks_gauge s)
    ∧ (∀ st m evt st1 m1, Inv st → process_event st m evt = .ok (st1, m1) →
        ∀ x ∈ st1.known_states, READY_STATES x = false) := by
  refine ⟨?_, ?_, ?_⟩
  · intro events st m s hInv hs
    exact processEvents_gauge_ready_mono events st m hInv s hs
  · intro st m s hs hk ht
    exact collect_unready_gauge_ready st m s hs hk ht
  · intro st m evt st1 m1 hInv h
    exact (inv_process_event hInv h).known_unready

/-- A terminal success event used by the witnesses. -/
def evtW9 : Event :=
  { type := "task-succeeded", uuid := some "a", local_received := some 9,
    runtime := some 4, name := none }

/-- C9 witness at a concrete state and event. -/
theorem spec_c9_witness :
    gval mEmpty.tasks_gauge .SUCCESS
      ≤ gval (processEvents stEmpty mEmpty [evtW9]).2.tasks_gauge
          .SUCCESS :=
  spec_c9_terminal_monotonic.1 [evtW9] stEmpty mEmpty .SUCCESS inv_stEmpty
    rfl

/-- C7: a successful worker ping sets the worker gauge to the number of
responding workers; a raising ping leaves the metrics untouched. -/
theorem spec_c7_worker_gauge (m : Metrics) (pong : List String) :
    (update_workers_count m (some pong)).workers = (pong.length : Int)
    ∧ update_workers_count m none = m :=
  ⟨rfl, rfl⟩

/-- C7 witness: three responders set the gauge to three, a later failed
ping keeps it at three. -/
theorem spec_c7_witness :
    (update_workers_count mEmpty (some ["w1", "w2", "w3"])).workers = 3
    ∧ (update_workers_count { mEmpty with workers := 3 } none).workers
        = 3 := by
  constructor
  · rw [(spec_c7_worker_gauge mEmpty ["w1", "w2", "w3"]).1]
    norm_num
  · rw [(spec_c7_worker_gauge { mEmpty with workers := 3 } []).2]

/-- The duplicated active-queues answer used by the C4 counterexample. -/
def aqC4 : List (List String) := [["q"], ["q"]]

/-- C4 counterexample: two workers consuming the same queue yield a
queue-name list with a duplicate, not a deduplicated set. -/
theorem spec_c4_counterexample : ¬ (get_queue_names aqC4).Nodup := by
  decide

/-- Folding list append starting from an accumulator is the accumulator
followed by the flattening. -/
theorem foldl_append_eq (aq : List (List String)) (acc : List String) :
    aq.foldl (fun names node => names ++ node) acc = acc ++ aq.flatten := by
  induction aq generalizing acc with
  | nil => simp
  | cons x xs ih => simp [ih, List.append_assoc]

/-- C4 amended: the queue-name collection is the in-order concatenation
of every worker node list, so a queue consumed by several workers appears
once per worker. -/
theorem spec_c4_amended (aq : List (List String)) :
    get_queue_names aq = aq.flatten
    ∧ (∀ q : String, q ∈ get_queue_names aq ↔ ∃ node ∈ aq, q ∈ node) := by
  have hj : get_queue_names aq = aq.flatten := by
    simpa using foldl_append_eq aq []
  refine ⟨hj, ?_⟩
  intro q
  rw [hj]
  exact List.mem_flatten

/-- C4 witness at the duplicated answer. -/
theorem spec_c4_amended_witness :
    get_queue_names aqC4 = aqC4.flatten
    ∧ ("q" ∈ get_queue_names aqC4 ↔ ∃ node ∈ aqC4, "q" ∈ node) :=
  ⟨(spec_c4_amended aqC4).1, (spec_c4_amended aqC4).2 "q"⟩

/-- A metric surface with one stale published series, used for C8. -/
def mC8 : Metrics :=
  { mEmpty with tasks_name_gauge := fun sn =>
      if sn = (.SUCCESS, some "old") then some 5 else none }

/-- C8 counterexample: after a baseline reset with successful
introspection that registers only the name new, the previously published
series (SUCCESS, old) keeps its value five instead of being zeroed. -/
theorem spec_c8_counterexample :
    mC8.tasks_name_gauge (.SUCCESS, some "old") = some 5
    ∧ (setup_metrics mC8 (some ["new"])).tasks_name_gauge
        (.SUCCESS, some "old") = some 5 := by
  constructor
  · rfl
  · decide

/-- C8 amended: the baseline reset zeroes the worker gauge; when
introspection raises, every existing per-state and per-state-and-name
child is zeroed; when introspection succeeds, exactly the ALL_STATES
labels and their pairings with registered names are zeroed, while any
pair with an unregistered name keeps its previous value. -/
theorem spec_c8_baseline_reset :
    (∀ m outcome, (setup_metrics m outcome).workers = 0)
    ∧ (∀ m s, (m.tasks_gauge s).isSome →
        (setup_metrics m none).tasks_gauge s = some 0)
    ∧ (∀ m sn, (m.tasks_name_gauge sn).isSome →
        (setup_metrics m none).tasks_name_gauge sn = some 0)
    ∧ (∀ m regs s, s ∈ ALL_STATES →
        (setup_metrics m (some regs)).tasks_gauge s = some 0)
    ∧ (∀ m regs s n, s ∈ ALL_STATES → n ∈ regs →
        (setup_metrics m (some regs)).tasks_name_gauge (s, some n)
          = some 0)
    ∧ (∀ m regs s n, n ∉ regs →
        (setup_metrics m (some regs)).tasks_name_gauge (s, some n)
          = m.tasks_name_gauge (s, some n)) := by
  refine ⟨?_, ?_, ?_, ?_, ?_, ?_⟩
  · intro m outcome
    cases outcome <;> rfl
  · intro m s h
    show resetAll m.tasks_gauge s = some 0
    cases hg : m.tasks_gauge s with
    | none => rw [hg] at h; simp at h
    | some v => simp [resetAll, hg]
  · intro m sn h
    show resetAll m.tasks_name_gauge sn = some 0
    cases hg : m.tasks_name_gauge sn with
    | none => rw [hg] at h; simp at h
    | some v => simp [resetAll, hg]
  · intro m regs s hs
    show (if s ∈ ALL_STATES then some 0 else m.tasks_gauge s) = some 0
    rw [if_pos hs]
  · intro m regs s n hs hn
    show (if s ∈ ALL_STATES ∧ n ∈ regs then some 0
      else m.tasks_name_gauge (s, some n)) = some 0
    rw [if_pos ⟨hs, hn⟩]
  · intro m regs s n hn
    show (if s ∈ ALL_STATES ∧ n ∈ regs then some 0
      else m.tasks_name_gauge (s, some n)) = m.tasks_name_gauge (s, some n)
    rw [if_neg (fun hc => hn hc.2)]

/-- C8 witness at the concrete stale surface. -/
theorem spec_c8_witness :
    (setup_metrics mC8 none).workers = 0
    ∧ (setup_metrics mC8 none).tasks_name_gauge (.SUCCESS, some "old")
        = some 0
    ∧ (setup_metrics mC8 (some ["new"])).tasks_gauge .SUCCESS = some 0
    ∧ (setup_metrics mC8 (some ["new"])).tasks_name_gauge
        (.SUCCESS, some "new") = some 0
    ∧ (setup_metrics mC8 (some ["new"])).tasks_name_gauge
        (.SUCCESS, some "old")
        = mC8.tasks_name_gauge (.SUCCESS, some "old") := by
  refine ⟨spec_c8_baseline_reset.1 mC8 none, ?_, ?_, ?_, ?_⟩
  · exact spec_c8_baseline_reset.2.2.1 mC8 (.SUCCESS, some "old")
      (by decide)
  · exact spec_c8_baseline_reset.2.2.2.1 mC8 ["new"] .SUCCESS (by decide)
  · exact spec_c8_baseline_reset.2.2.2.2.1 mC8 ["new"] .SUCCESS "new"
      (by decide) (by decide)
  · exact spec_c8_baseline_reset.2.2.2.2.2 mC8 ["new"] .SUCCESS "old"
      (by decide)

/-- Without a uuid the latency observation is a caught KeyError. -/
theorem observe_latency_none_uuid (st : MonitorState) (m : Metrics)
    (evt : Event) (huuid : evt.uuid = none) :
    observe_latency st m evt = .ok m := by
  simp only [observe_latency, huuid]

/-- A terminal state is not the STARTED state. -/
theorem ready_ne_started {s : TaskState} (h : READY_STATES s = true) :
    s ≠ .STARTED := by
  intro hc
  rw [hc] at h
  simp [READY_STATES] at h

/-- Reduction of one processed task event once the latency phase is
known. -/
theorem process_event_eq (st : MonitorState) (m : Metrics) (evt : Event)
    (s : TaskState) (m2 : Metrics)
    (hgrp : group_from evt.type = "task")
    (hstate : TASK_EVENT_TO_STATE (typeSuffix evt.type) = some s)
    (hobs : (if s = .STARTED then observe_latency st m evt else .ok m)
      = .ok m2) :
    process_event st m evt = .ok (collect_tasks st m2 evt s) := by
  unfold process_event
  rw [if_pos hgrp, hstate]
  simp only []
  rw [hobs]

/-- With a uuid that is not tracked, the terminal path only increments
the per-state gauge. -/
theorem incr_ready_pop_none (st : MonitorState) (m : Metrics) (evt : Event)
    (s : TaskState) (u : String) (huuid : evt.uuid = some u)
    (hpop : popTask st.tasks u = none) :
    incr_ready_task st m evt s
      = (st, { m with tasks_gauge := ginc m.tasks_gauge s }) := by
  simp only [incr_ready_task, huuid, hpop]

/-- The malformed terminal event of the C3 counterexample: no uuid. -/
def evtC3 : Event :=
  { type := "task-succeeded", uuid := none, local_received := none,
    runtime := none, name := none }

/-- C3 counterexample: a terminal task event without a uuid is processed
without error and without registry mutation, yet it does change a metric,
incrementing the SUCCESS per-state gauge from absent (read as zero) to
one. -/
theorem spec_c3_counterexample :
    mEmpty.tasks_gauge .SUCCESS = none
    ∧ (process_event stEmpty mEmpty evtC3).toOption.map
        (fun p => (p.2.tasks_gauge .SUCCESS, p.1.tasks))
      = some (some 1, ([] : Registry)) := by
  constructor
  · rfl
  · decide

/-- C3 amended: a task event without a uuid never mutates the registry
and is never escalated, the latency and runtime histograms and every
terminal per-state-and-name series are unchanged; but a terminal event
still increments its own per-state gauge by exactly one, every other
terminal per-state gauge staying unchanged. -/
theorem spec_c3_malformed_event (st : MonitorState) (m : Metrics)
    (evt : Event) (s : TaskState) (hInv : Inv st)
    (hgrp : group_from evt.type = "task")
    (hstate : TASK_EVENT_TO_STATE (typeSuffix evt.type) = some s)
    (huuid : evt.uuid = none) :
    ∃ st1 m1, process_event st m evt = .ok (st1, m1)
      ∧ st1.tasks = st.tasks
      ∧ m1.latency_hist = m.latency_hist
      ∧ m1.runtime_hist = m.runtime_hist
      ∧ (∀ s0 n, READY_STATES s0 = true →
          m1.tasks_name_gauge (s0, some n)
            = m.tasks_name_gauge (s0, some n))
      ∧ (READY_STATES s = true →
          m1.tasks_gauge s = some (gval m.tasks_gauge s + 1))
      ∧ (∀ s0, READY_STATES s0 = true →
          ¬(READY_STATES s = true ∧ s = s0) →
          m1.tasks_gauge s0 = m.tasks_gauge s0) := by
  have hobs : (if s = .STARTED then observe_latency st m evt else .ok m)
      = .ok m := by
    by_cases hs : s = .STARTED
    · rw [if_pos hs]
      exact observe_latency_none_uuid st m evt huuid
    · exact if_neg hs
  have hrun := process_event_eq st m evt s m hgrp hstate hobs
  refine ⟨(collect_tasks st m evt s).1, (collect_tasks st m evt s).2,
    by rw [hrun], ?_, ?_, ?_, ?_, ?_, ?_⟩
  · show (collect_tasks st m evt s).1.tasks = st.tasks
    simp only [collect_tasks]
    rw [collect_unready_tasks_fst]
    split
    · rw [incr_ready_none_uuid st m evt s huuid]
    · rw [stateEvent_none_uuid st.tasks st.maxTasks evt s huuid]
  · exact collect_tasks_latency st m evt s
  · show (collect_tasks st m evt s).2.runtime_hist = m.runtime_hist
    simp only [collect_tasks]
    rw [collect_unready_runtime]
    split
    · rw [incr_ready_none_uuid st m evt s huuid]
    · rfl
  · intro s0 n h0
    show (collect_tasks st m evt s).2.tasks_name_gauge (s0, some n)
      = m.tasks_name_gauge (s0, some n)
    simp only [collect_tasks]
    split
    · rw [incr_ready_none_uuid st m evt s huuid]
      exact collect_unready_name_gauge_ready st _ s0 (some n) h0
        hInv.known_names_unready hInv.tasks_unready
    · rename_i hr
      have hInv2 := stateEvent_inv st evt s (by simpa using hr) hInv
      exact collect_unready_name_gauge_ready _ _ s0 (some n) h0
        hInv2.known_names_unready hInv2.tasks_unready
  · intro hr
    have hc := collect_tasks_gauge_ready st m evt s s hInv hr
    rw [if_pos ⟨hr, rfl⟩] at hc
    exact hc
  · intro s0 h0 hne
    have hc := collect_tasks_gauge_ready st m evt s s0 hInv h0
    rw [if_neg hne] at hc
    exact hc

/-- A malformed terminal event with a name, for the C3 witness. -/
def evtW3 : Event :=
  { type := "task-failed", uuid := none, local_received := some 7,
    runtime := none, name := none }

/-- C3 witness at a concrete malformed event. -/
theorem spec_c3_witness :
    ∃ st1 m1, process_event stEmpty mEmpty evtW3 = .ok (st1, m1)
      ∧ st1.tasks = stEmpty.tasks
      ∧ m1.latency_hist = mEmpty.latency_hist
      ∧ m1.runtime_hist = mEmpty.runtime_hist
      ∧ (∀ s0 n, READY_STATES s0 = true →
          m1.tasks_name_gauge (s0, some n)
            = mEmpty.tasks_name_gauge (s0, some n))
      ∧ (READY_STATES .FAILURE = true →
          m1.tasks_gauge .FAILURE
            = some (gval mEmpty.tasks_gauge .FAILURE + 1))
      ∧ (∀ s0, READY_STATES s0 = true →
          ¬(READY_STATES .FAILURE = true ∧ .FAILURE = s0) →
          m1.tasks_gauge s0 = mEmpty.tasks_gauge s0) :=
  spec_c3_malformed_event stEmpty mEmpty evtW3 .FAILURE inv_stEmpty
    (by decide) (by decide) rfl

/-- C10: a terminal event for an id that is not tracked still increments
the per-state gauge by exactly one, creates no registry record,
increments no per-state-and-name series (the by-name surface is exactly
the republished snapshot of the unchanged registry), observes no runtime,
and raises no error. -/
theorem spec_c10_terminal_untracked (st : MonitorState) (m : Metrics)
    (evt : Event) (u : String) (s : TaskState) (hInv : Inv st)
    (hgrp : group_from evt.type = "task")
    (hstate : TASK_EVENT_TO_STATE (typeSuffix evt.type) = some s)
    (hready : READY_STATES s = true) (huuid : evt.uuid = some u)
    (hlook : lookupTask st.tasks u = none) :
    ∃ st1 m1, process_event st m evt = .ok (st1, m1)
      ∧ st1.tasks = st.tasks
      ∧ m1.tasks_gauge s = some (gval m.tasks_gauge s + 1)
      ∧ m1.tasks_name_gauge
          = (collect_unready_tasks st m).2.tasks_name_gauge
      ∧ (∀ s0 n, READY_STATES s0 = true →
          m1.tasks_name_gauge (s0, some n)
            = m.tasks_name_gauge (s0, some n))
      ∧ m1.runtime_hist = m.runtime_hist
      ∧ m1.latency_hist = m.latency_hist := by
  have hobs : (if s = .STARTED then observe_latency st m evt else .ok m)
      = .ok m := if_neg (ready_ne_started hready)
  have hrun := process_event_eq st m evt s m hgrp hstate hobs
  have hpop : popTask st.tasks u = none := popTask_eq_none.mpr hlook
  have hcoll : collect_tasks st m evt s
      = collect_unready_tasks st
          { m with tasks_gauge := ginc m.tasks_gauge s } := by
    simp only [collect_tasks]
    rw [if_pos hready, incr_ready_pop_none st m evt s u huuid hpop]
  refine ⟨(collect_tasks st m evt s).1, (collect_tasks st m evt s).2,
    by rw [hrun], ?_, ?_, ?_, ?_, ?_, ?_⟩
  · rw [hcoll]
    exact collect_unready_tasks_fst st _
  · have hc := collect_tasks_gauge_ready st m evt s s hInv hready
    rw [if_pos ⟨hready, rfl⟩] at hc
    exact hc
  · rw [hcoll]
    rfl
  · intro s0 n h0
    rw [hcoll]
    exact collect_unready_name_gauge_ready st _ s0 (some n) h0
      hInv.known_names_unready hInv.tasks_unready
  · rw [hcoll]
    exact collect_unready_runtime st _
  · exact collect_tasks_latency st m evt s

/-- The terminal event for an untracked id of the C10 witness. -/
def evtW10 : Event :=
  { type := "task-revoked", uuid := some "ghost", local_received := some 4,
    runtime := some 2, name := none }

/-- C10 witness at a concrete untracked id. -/
theorem spec_c10_witness :
    ∃ st1 m1, process_event stEmpty mEmpty evtW10 = .ok (st1, m1)
      ∧ st1.tasks = stEmpty.tasks
      ∧ m1.tasks_gauge .REVOKED
          = some (gval mEmpty.tasks_gauge .REVOKED + 1)
      ∧ m1.tasks_name_gauge
          = (collect_unready_tasks stEmpty mEmpty).2.tasks_name_gauge
      ∧ (∀ s0 n, READY_STATES s0 = true →
          m1.tasks_name_gauge (s0, some n)
            = mEmpty.tasks_name_gauge (s0, some n))
      ∧ m1.runtime_hist = mEmpty.runtime_hist
      ∧ m1.latency_hist = mEmpty.latency_hist :=
  spec_c10_terminal_untracked stEmpty mEmpty evtW10 "ghost" .REVOKED
    inv_stEmpty (by decide) (by decide) rfl rfl rfl

/-- Registry after a successful terminal pop. -/
theorem incr_ready_pop_some_fst (st : MonitorState) (m : Metrics)
    (evt : Event) (s : TaskState) (u : String) (rec : TaskRecord)
    (rest : Registry) (huuid : evt.uuid = some u)
    (hpop : popTask st.tasks u = some (rec, rest)) :
    (incr_ready_task st m evt s).1 = { st with tasks := rest } := by
  simp only [incr_ready_task, huuid, hpop]

/-- The by-name gauge after a successful terminal pop: one increment at
the popped name. -/
theorem incr_ready_pop_some_name (st : MonitorState) (m : Metrics)
    (evt : Event) (s : TaskState) (u : String) (rec : TaskRecord)
    (rest : Registry) (huuid : evt.uuid = some u)
    (hpop : popTask st.tasks u = some (rec, rest)) :
    (incr_ready_task st m evt s).2.tasks_name_gauge
      = ginc m.tasks_name_gauge (s, rec.name) := by
  simp only [incr_ready_task, huuid, hpop]
  split <;> rfl

/-- The runtime histogram after a successful terminal pop of an event
carrying a runtime: one observation at the popped name. -/
theorem incr_ready_pop_some_runtime (st : MonitorState) (m : Metrics)
    (evt : Event) (s : TaskState) (u : String) (rec : TaskRecord)
    (rest : Registry) (r : Int) (huuid : evt.uuid = some u)
    (hpop : popTask st.tasks u = some (rec, rest))
    (hr : evt.runtime = some r) :
    (incr_ready_task st m evt s).2.runtime_hist rec.name
      = r :: m.runtime_hist rec.name := by
  simp only [incr_ready_task, huuid, hpop, hr]
  simp

/-- C1: a terminal event for a tracked id removes the id from the
registry, so the following unready aggregation no longer counts it;
the per-state gauge is incremented by exactly one, the
per-state-and-name gauge by exactly one when the stored record carried a
name, and the runtime of the event is observed into the histogram of the
stored name when the event carries one. -/
theorem spec_c1_terminal_tracked (st : MonitorState) (m : Metrics)
    (evt : Event) (u : String) (rec : TaskRecord) (s : TaskState)
    (hInv : Inv st) (hgrp : group_from evt.type = "task")
    (hstate : TASK_EVENT_TO_STATE (typeSuffix evt.type) = some s)
    (hready : READY_STATES s = true) (huuid : evt.uuid = some u)
    (hlook : lookupTask st.tasks u = some rec) :
    ∃ st1 m1, process_event st m evt = .ok (st1, m1)
      ∧ lookupTask st1.tasks u = none
      ∧ m1.tasks_gauge s = some (gval m.tasks_gauge s + 1)
      ∧ (∀ n, rec.name = some n →
          m1.tasks_name_gauge (s, some n)
            = some (gval m.tasks_name_gauge (s, some n) + 1))
      ∧ (∀ r, evt.runtime = some r →
          m1.runtime_hist rec.name = r :: m.runtime_hist rec.name) := by
  obtain ⟨rest, hpop⟩ := popTask_of_lookup hlook
  have hobs : (if s = .STARTED then observe_latency st m evt else .ok m)
      = .ok m := if_neg (ready_ne_started hready)
  have hrun := process_event_eq st m evt s m hgrp hstate hobs
  have hIncInv := incr_ready_inv st m evt s hInv
  have htasks : (collect_tasks st m evt s).1.tasks = rest := by
    simp only [collect_tasks]
    rw [if_pos hready, collect_unready_tasks_fst,
      incr_ready_pop_some_fst st m evt s u rec rest huuid hpop]
  refine ⟨(collect_tasks st m evt s).1, (collect_tasks st m evt s).2,
    by rw [hrun], ?_, ?_, ?_, ?_⟩
  · rw [htasks]
    exact lookupTask_eq_none_iff.mpr
      (popTask_not_mem_keys hInv.keys_nodup hpop)
  · have hc := collect_tasks_gauge_ready st m evt s s hInv hready
    rw [if_pos ⟨hready, rfl⟩] at hc
    exact hc
  · intro n hn
    show (collect_tasks st m evt s).2.tasks_name_gauge (s, some n)
      = some (gval m.tasks_name_gauge (s, some n) + 1)
    simp only [collect_tasks]
    rw [if_pos hready]
    rw [collect_unready_name_gauge_ready _ _ s (some n) hready
      hIncInv.known_names_unready hIncInv.tasks_unready]
    rw [incr_ready_pop_some_name st m evt s u rec rest huuid hpop]
    rw [hn]
    simp [ginc, gset, gval]
  · intro r hr
    show (collect_tasks st m evt s).2.runtime_hist rec.name
      = r :: m.runtime_hist rec.name
    simp only [collect_tasks]
    rw [if_pos hready, collect_unready_runtime]
    exact incr_ready_pop_some_runtime st m evt s u rec rest r huuid hpop hr

/-- The tracked record and monitor state of the C1 witness. -/
def recW1 : TaskRecord :=
  { name := some "mytask", state := .STARTED, local_received := some 2 }

/-- One tracked task under a capacity of ten. -/
def stW1 : MonitorState :=
  { maxTasks := 10, tasks := [("a", recW1)], known_states := [.STARTED],
    known_states_names := [(.STARTED, "mytask")] }

/-- The invariant holds at the C1 witness state. -/
theorem inv_stW1 : Inv stW1 := by
  constructor <;> simp [stW1, recW1, READY_STATES]

/-- The terminal event of the C1 witness. -/
def evtW1 : Event :=
  { type := "task-succeeded", uuid := some "a", local_received := some 9,
    runtime := some 4, name := none }

/-- C1 witness at a concrete tracked task. -/
theorem spec_c1_witness :
    ∃ st1 m1, process_event stW1 mEmpty evtW1 = .ok (st1, m1)
      ∧ lookupTask st1.tasks "a" = none
      ∧ m1.tasks_gauge .SUCCESS
          = some (gval mEmpty.tasks_gauge .SUCCESS + 1)
      ∧ (∀ n, recW1.name = some n →
          m1.tasks_name_gauge (.SUCCESS, some n)
            = some (gval mEmpty.tasks_name_gauge (.SUCCESS, some n) + 1))
      ∧ (∀ r, evtW1.runtime = some r →
          m1.runtime_hist recW1.name = r :: mEmpty.runtime_hist recW1.name) :=
  spec_c1_terminal_tracked stW1 mEmpty evtW1 "a" recW1 .SUCCESS inv_stW1
    (by decide) (by decide) rfl rfl (by decide)

/-- C2: a latency observation happens exactly on a STARTED event whose id
has a tracked record in state RECEIVED, and it observes the difference of
the received timestamps; a STARTED event over any other previous state or
over no record observes nothing, and no other event type ever observes
latency. -/
theorem spec_c2_latency (st : MonitorState) (m : Metrics) (evt : Event) :
    (∀ u rec t0 t1, evt.type = "task-started" → evt.uuid = some u →
      lookupTask st.tasks u = some rec → rec.state = .RECEIVED →
      rec.local_received = some t0 → evt.local_received = some t1 →
      ∃ st1 m1, process_event st m evt = .ok (st1, m1)
        ∧ m1.latency_hist = (t1 - t0) :: m.latency_hist)
    ∧ (∀ u rec, evt.type = "task-started" → evt.uuid = some u →
        lookupTask st.tasks u = some rec → rec.state ≠ .RECEIVED →
        ∃ st1 m1, process_event st m evt = .ok (st1, m1)
          ∧ m1.latency_hist = m.latency_hist)
    ∧ (∀ u, evt.type = "task-started" → evt.uuid = some u →
        lookupTask st.tasks u = none →
        ∃ st1 m1, process_event st m evt = .ok (st1, m1)
          ∧ m1.latency_hist = m.latency_hist)
    ∧ (∀ s st1 m1, TASK_EVENT_TO_STATE (typeSuffix evt.type) = some s →
        s ≠ .STARTED → process_event st m evt = .ok (st1, m1) →
        m1.latency_hist = m.latency_hist) := by
  refine ⟨?_, ?_, ?_, ?_⟩
  · intro u rec t0 t1 htype huuid hlook hstR hrt0 hrt1
    have hgrp : group_from evt.type = "task" := by rw [htype]; decide
    have hstate : TASK_EVENT_TO_STATE (typeSuffix evt.type)
        = some .STARTED := by rw [htype]; decide
    have hol : observe_latency st m evt
        = .ok { m with latency_hist := (t1 - t0) :: m.latency_hist } := by
      simp only [observe_latency, huuid, hlook, hstR, hrt1, hrt0]
      simp
    have hobs : (if TaskState.STARTED = .STARTED
        then observe_latency st m evt else .ok m)
        = .ok { m with latency_hist := (t1 - t0) :: m.latency_hist } := by
      rw [if_pos rfl]
      exact hol
    have hrun := process_event_eq st m evt .STARTED _ hgrp hstate hobs
    exact ⟨_, _, hrun, collect_tasks_latency st _ evt .STARTED⟩
  · intro u rec htype huuid hlook hne
    have hgrp : group_from evt.type = "task" := by rw [htype]; decide
    have hstate : TASK_EVENT_TO_STATE (typeSuffix evt.type)
        = some .STARTED := by rw [htype]; decide
    have hol : observe_latency st m evt = .ok m := by
      simp only [observe_latency, huuid, hlook]
      rw [if_neg hne]
    have hobs : (if TaskState.STARTED = .STARTED
        then observe_latency st m evt else .ok m) = .ok m := by
      rw [if_pos rfl]
      exact hol
    have hrun := process_event_eq st m evt .STARTED _ hgrp hstate hobs
    exact ⟨_, _, hrun, collect_tasks_latency st _ evt .STARTED⟩
  · intro u htype huuid hlook
    have hgrp : group_from evt.type = "task" := by rw [htype]; decide
    have hstate : TASK_EVENT_TO_STATE (typeSuffix evt.type)
        = some .STARTED := by rw [htype]; decide
    have hol : observe_latency st m evt = .ok m := by
      simp only [observe_latency, huuid, hlook]
    have hobs : (if TaskState.STARTED = .STARTED
        then observe_latency st m evt else .ok m) = .ok m := by
      rw [if_pos rfl]
      exact hol
    have hrun := process_event_eq st m evt .STARTED _ hgrp hstate hobs
    exact ⟨_, _, hrun, collect_tasks_latency st _ evt .STARTED⟩
  · intro s st1 m1 hmap hne h
    unfold process_event at h
    split at h
    · split at h
      · simp at h
      · rename_i s2 hmap2
        rw [hmap] at hmap2
        injection hmap2 with hss
        subst hss
        split at h
        · simp at h
        · rename_i m2 hobs
          rw [if_neg hne] at hobs
          simp only [Except.ok.injEq] at hobs h
          have hl := collect_tasks_latency st m2 evt s
          rw [h] at hl
          rw [hl, ← hobs]
    · simp only [Except.ok.injEq, Prod.mk.injEq] at h
      rw [← h.2]

/-- The tracked RECEIVED record of the C2 witness. -/
def recW2 : TaskRecord :=
  { name := none, state := .RECEIVED, local_received := some 2 }

/-- The monitor state of the C2 witness. -/
def stW2 : MonitorState :=
  { maxTasks := 10, tasks := [("a", recW2)], known_states := [.RECEIVED],
    known_states_names := [] }

/-- The STARTED event of the C2 witness. -/
def evtW2 : Event :=
  { type := "task-started", uuid := some "a", local_received := some 5,
    runtime := none, name := none }

/-- C2 witness: RECEIVED at two then STARTED at five observes latency
three. -/
theorem spec_c2_witness :
    ∃ st1 m1, process_event stW2 mEmpty evtW2 = .ok (st1, m1)
      ∧ m1.latency_hist = ((5 : Int) - 2) :: mEmpty.latency_hist :=
  (spec_c2_latency stW2 mEmpty evtW2).1 "a" recW2 2 5 rfl rfl (by decide)
    rfl rfl rfl

/-- Inserting a fresh id into a registry already at capacity drops
exactly the oldest entry. -/
theorem stateEvent_insert_full (tasks : Registry) (maxTasks : Nat)
    (evt : Event) (s : TaskState) (u : String)
    (huuid : evt.uuid = some u) (hlook : lookupTask tasks u = none)
    (hlen : tasks.length = maxTasks) (hpos : 0 < maxTasks) :
    stateEvent tasks maxTasks evt s
      = tasks.tail ++ [(u, newRecord evt s)] := by
  simp only [stateEvent, huuid, hlook]
  have hL : (tasks ++ [(u, newRecord evt s)]).length - maxTasks = 1 := by
    simp [List.length_append, hlen]
  rw [hL]
  rw [List.drop_append_of_le_length (by omega)]
  rw [List.drop_one]

/-- C6: the registry never grows past its capacity, and a fresh
non-terminal task arriving at capacity evicts exactly the
oldest-inserted record, without error and without touching any terminal
gauge, the runtime histogram or the latency histogram. -/
theorem spec_c6_capacity :
    (∀ st m evt st1 m1, Inv st → process_event st m evt = .ok (st1, m1) →
      st1.tasks.length ≤ st.maxTasks)
    ∧ (∀ st m evt u s, Inv st → 0 < st.maxTasks →
        st.tasks.length = st.maxTasks →
        group_from evt.type = "task" →
        TASK_EVENT_TO_STATE (typeSuffix evt.type) = some s →
        READY_STATES s = false →
        evt.uuid = some u → lookupTask st.tasks u = none →
        ∃ st1 m1, process_event st m evt = .ok (st1, m1)
          ∧ st1.tasks = st.tasks.tail ++ [(u, newRecord evt s)]
          ∧ st1.tasks.length = st.maxTasks
          ∧ (∀ s0, READY_STATES s0 = true →
              m1.tasks_gauge s0 = m.tasks_gauge s0)
          ∧ (∀ s0 n, READY_STATES s0 = true →
              m1.tasks_name_gauge (s0, some n)
                = m.tasks_name_gauge (s0, some n))
          ∧ m1.runtime_hist = m.runtime_hist
          ∧ m1.latency_hist = m.latency_hist) := by
  constructor
  · intro st m evt st1 m1 hInv h
    have h1 := (inv_process_event hInv h).len_le
    rw [process_event_maxTasks h] at h1
    exact h1
  · intro st m evt u s hInv hpos hlen hgrp hstate hr huuid hlook
    have hnotr : ¬(READY_STATES s = true) := by rw [hr]; simp
    have hobs : (if s = .STARTED then observe_latency st m evt else .ok m)
        = .ok m := by
      by_cases hs : s = .STARTED
      · rw [if_pos hs]
        simp only [observe_latency, huuid, hlook]
      · exact if_neg hs
    have hrun := process_event_eq st m evt s m hgrp hstate hobs
    have hins := stateEvent_insert_full st.tasks st.maxTasks evt s u huuid
      hlook hlen hpos
    have hInv2 := stateEvent_inv st evt s hr hInv
    have hcoll : collect_tasks st m evt s
        = collect_unready_tasks
            { st with tasks := stateEvent st.tasks st.maxTasks evt s } m := by
      simp only [collect_tasks]
      rw [if_neg hnotr]
    have htasks : (collect_tasks st m evt s).1.tasks
        = st.tasks.tail ++ [(u, newRecord evt s)] := by
      rw [hcoll, collect_unready_tasks_fst]
      exact hins
    refine ⟨(collect_tasks st m evt s).1, (collect_tasks st m evt s).2,
      by rw [hrun], htasks, ?_, ?_, ?_, ?_, ?_⟩
    · rw [htasks]
      have hta : st.tasks.tail.length = st.tasks.length - 1 :=
        List.length_tail _
      simp only [List.length_append, List.length_cons, List.length_nil]
      omega
    · intro s0 h0
      have hc := collect_tasks_gauge_ready st m evt s s0 hInv h0
      rw [if_neg (fun hc2 => hnotr hc2.1)] at hc
      exact hc
    · intro s0 n h0
      rw [hcoll]
      exact collect_unready_name_gauge_ready _ _ s0 (some n) h0
        hInv2.known_names_unready hInv2.tasks_unready
    · rw [hcoll]
      exact collect_unready_runtime _ _
    · rw [hcoll]
      exact collect_unready_latency _ _

/-- The record filling the capacity-one registry of the C6 witness. -/
def recW6 : TaskRecord :=
  { name := none, state := .RECEIVED, local_received := some 1 }

/-- A monitor state at full capacity one. -/
def stW6 : MonitorState :=
  { maxTasks := 1, tasks := [("a", recW6)], known_states := [.RECEIVED],
    known_states_names := [] }

/-- The invariant holds at the C6 witness state. -/
theorem inv_stW6 : Inv stW6 := by
  constructor <;> simp [stW6, recW6, READY_STATES]

/-- The fresh non-terminal event of the C6 witness. -/
def evtW6 : Event :=
  { type := "task-received", uuid := some "b", local_received := some 3,
    runtime := none, name := none }

/-- C6 witness: at capacity one, a fresh received task evicts the oldest
record. -/
theorem spec_c6_witness :
    ∃ st1 m1, process_event stW6 mEmpty evtW6 = .ok (st1, m1)
      ∧ st1.tasks = stW6.tasks.tail ++ [("b", newRecord evtW6 .RECEIVED)]
      ∧ st1.tasks.length = stW6.maxTasks
      ∧ (∀ s0, READY_STATES s0 = true →
          m1.tasks_gauge s0 = mEmpty.tasks_gauge s0)
      ∧ (∀ s0 n, READY_STATES s0 = true →
          m1.tasks_name_gauge (s0, some n)
            = mEmpty.tasks_name_gauge (s0, some n))
      ∧ m1.runtime_hist = mEmpty.runtime_hist
      ∧ m1.latency_hist = mEmpty.latency_hist :=
  spec_c6_capacity.2 stW6 mEmpty evtW6 "b" .RECEIVED inv_stW6
    (by decide) rfl (by decide) (by decide) rfl rfl (by decide)

/-- The per-task counter lookup fails exactly off the tallied names. -/
theorem countOf_eq_none_iff {stat : List (String × Nat)} {t : String} :
    countOf stat t = none ↔ t ∉ stat.map Prod.fst := by
  induction stat with
  | nil => simp [countOf]
  | cons p rest ih =>
      obtain ⟨k, c⟩ := p
      by_cases hk : k = t
      · simp [countOf, hk]
      · simp only [countOf, if_neg hk, List.map_cons, List.mem_cons, ih,
          not_or]
        constructor
        · intro h
          exact ⟨fun h1 => hk h1.symm, h⟩
        · intro h
          exact h.2

/-- A successful per-task counter lookup is a member of the tally. -/
theorem countOf_mem {stat : List (String × Nat)} {t : String} {c : Nat}
    (h : countOf stat t = some c) : (t, c) ∈ stat := by
  induction stat with
  | nil => simp [countOf] at h
  | cons p rest ih =>
      obtain ⟨k, c0⟩ := p
      by_cases hk : k = t
      · simp only [countOf, if_pos hk, Option.some.injEq] at h
        exact List.mem_cons.mpr (Or.inl (by rw [hk, h]))
      · simp only [countOf, if_neg hk] at h
        exact List.mem_cons_of_mem _ (ih h)

/-- Over a tally with distinct names, membership determines the counter
lookup. -/
theorem mem_countOf {stat : List (String × Nat)} {t : String} {c : Nat}
    (hnd : (stat.map Prod.fst).Nodup) (h : (t, c) ∈ stat) :
    countOf stat t = some c := by
  induction stat with
  | nil => simp at h
  | cons p rest ih =>
      obtain ⟨k, c0⟩ := p
      simp only [List.map_cons, List.nodup_cons] at hnd
      rcases List.mem_cons.mp h with h1 | h1
      · rw [Prod.mk.injEq] at h1
        obtain ⟨h2, h3⟩ := h1
        simp [countOf, h2.symm, h3.symm]
      · by_cases hk : k = t
        · exfalso
          apply hnd.1
          rw [hk]
          exact List.mem_map.mpr ⟨(t, c), h1, rfl⟩
        · simp only [countOf, if_neg hk]
          exact ih hnd.2 h1

/-- The names of a tally after one step. -/
theorem tally_map_fst (acc : List (String × Nat)) (n : String) :
    (tally acc n).map Prod.fst
      = if n ∈ acc.map Prod.fst then acc.map Prod.fst
        else acc.map Prod.fst ++ [n] := by
  induction acc with
  | nil => simp [tally]
  | cons p rest ih =>
      obtain ⟨k, c⟩ := p
      by_cases hk : k = n
      · simp [tally, hk]
      · simp only [tally, if_neg hk, List.map_cons, ih, List.mem_cons]
        by_cases hmem : n ∈ rest.map Prod.fst
        · rw [if_pos hmem, if_pos (Or.inr hmem)]
        · rw [if_neg hmem,
            if_neg (by rintro (h1 | h1); exacts [hk h1.symm, hmem h1])]
          simp

/-- One tally step keeps the names distinct. -/
theorem tally_keys_nodup {acc : List (String × Nat)} (n : String)
    (hnd : (acc.map Prod.fst).Nodup) :
    ((tally acc n).map Prod.fst).Nodup := by
  rw [tally_map_fst]
  split
  · exact hnd
  · rename_i hmem
    rw [List.nodup_append]
    refine ⟨hnd, List.nodup_singleton _, ?_⟩
    intro a ha hb
    rw [List.mem_singleton.mp hb] at ha
    exact hmem ha

/-- The payload tally keeps the names distinct, whatever the
accumulator. -/
theorem get_tasks_stat_aux_nodup (tasks : List (Option String))
    (acc : List (String × Nat)) (hnd : (acc.map Prod.fst).Nodup) :
    ((tasks.foldl (fun a t =>
        match t with
        | some n => tally a n
        | none => a) acc).map Prod.fst).Nodup := by
  induction tasks generalizing acc with
  | nil => exact hnd
  | cons t rest ih =>
      simp only [List.foldl_cons]
      cases t with
      | none => exact ih _ hnd
      | some n => exact ih _ (tally_keys_nodup n hnd)

/-- The payload tally of a queue has distinct task names. -/
theorem get_tasks_stat_keys_nodup (tasks : List (Option String)) :
    ((get_tasks_stat tasks).map Prod.fst).Nodup :=
  get_tasks_stat_aux_nodup tasks [] (by simp)

/-- Publishing a per-task tally writes exactly the pairs of the sampled
queue with the tallied names. -/
theorem foldl_gset_apply (g : String × String → Option Int) (name : String)
    (stat : List (String × Nat)) (q t : String)
    (hnd : (stat.map Prod.fst).Nodup) :
    (stat.foldl (fun g2 tc => gset g2 (name, tc.1) ((tc.2 : Nat) : Int)) g)
        (q, t)
      = if q = name then
          match countOf stat t with
          | some c => some ((c : Nat) : Int)
          | none => g (q, t)
        else g (q, t) := by
  induction stat generalizing g with
  | nil =>
      simp only [List.foldl_nil, countOf]
      split <;> rfl
  | cons kc rest ih =>
      obtain ⟨k, c⟩ := kc
      simp only [List.map_cons, List.nodup_cons] at hnd
      simp only [List.foldl_cons]
      rw [ih _ hnd.2]
      by_cases hq : q = name
      · subst hq
        rw [if_pos rfl, if_pos rfl]
        by_cases hkt : k = t
        · subst hkt
          have hnone : countOf rest k = none :=
            countOf_eq_none_iff.mpr hnd.1
          rw [hnone]
          simp [countOf, gset]
        · simp only [countOf, if_neg hkt]
          cases hcount : countOf rest t with
          | some c2 => rfl
          | none =>
              simp only [gset]
              rw [if_neg ?hne]
              case hne =>
                intro hpair
                rw [Prod.mk.injEq] at hpair
                exact hkt hpair.2.symm
      · rw [if_neg hq, if_neg hq]
        simp only [gset]
        rw [if_neg ?hne2]
        case hne2 =>
          intro hpair
          rw [Prod.mk.injEq] at hpair
          exact hq hpair.1

/-- The known queue labels of one sampling pass are the walked names. -/
theorem update_queues_loop_kq (qlen : String → Nat)
    (qitems : String → List (Option String)) (names : List String)
    (m : Metrics) (kq : List String) (kt : List (String × String)) :
    (update_queues_loop qlen qitems names m kq kt).2.1 = kq ++ names := by
  induction names generalizing m kq kt with
  | nil => simp [update_queues_loop]
  | cons name rest ih =>
      simp only [update_queues_loop]
      rw [ih]
      simp

/-- The known queue-task labels of one sampling pass are the tallied
pairs of every walked queue. -/
theorem update_queues_loop_kt (qlen : String → Nat)
    (qitems : String → List (Option String)) (names : List String)
    (m : Metrics) (kq : List String) (kt : List (String × String)) :
    (update_queues_loop qlen qitems names m kq kt).2.2
      = kt ++ (names.map (fun n =>
          (get_tasks_stat (qitems n)).map (fun tc => (n, tc.1)))).flatten := by
  induction names generalizing m kq kt with
  | nil => simp [update_queues_loop]
  | cons name rest ih =>
      simp only [update_queues_loop]
      rw [ih]
      simp [List.append_assoc]

/-- The queue size gauge after the sampling loop: the sampled length for
a walked queue, the old value otherwise. -/
theorem update_queues_loop_size (qlen : String → Nat)
    (qitems : String → List (Option String)) (names : List String)
    (m : Metrics) (kq : List String) (kt : List (String × String))
    (q : String) :
    (update_queues_loop qlen qitems names m kq kt).1.queue_size q
      = if q ∈ names then some ((qlen q : Nat) : Int)
        else m.queue_size q := by
  induction names generalizing m kq kt with
  | nil => simp [update_queues_loop]
  | cons name rest ih =>
      simp only [update_queues_loop]
      rw [ih]
      by_cases hq : q ∈ rest
      · rw [if_pos hq, if_pos (List.mem_cons_of_mem _ hq)]
      · rw [if_neg hq]
        by_cases hqn : q = name
        · subst hqn
          rw [if_pos (List.mem_cons_self _ _)]
          simp [gset]
        · rw [if_neg (fun hmem => by
            rcases List.mem_cons.mp hmem with h1 | h1
            exacts [hqn h1, hq h1])]
          simp [gset, hqn]

/-- The queue task gauge after the sampling loop: the tallied count for a
walked queue and tallied name, the old value otherwise. -/
theorem update_queues_loop_tasks (qlen : String → Nat)
    (qitems : String → List (Option String)) (names : List String)
    (m : Metrics) (kq : List String) (kt : List (String × String))
    (q t : String) :
    (update_queues_loop qlen qitems names m kq kt).1.queue_tasks (q, t)
      = if q ∈ names then
          match countOf (get_tasks_stat (qitems q)) t with
          | some c => some ((c : Nat) : Int)
          | none => m.queue_tasks (q, t)
        else m.queue_tasks (q, t) := by
  induction names generalizing m kq kt with
  | nil => simp [update_queues_loop]
  | cons name rest ih =>
      simp only [update_queues_loop]
      rw [ih]
      have hfold := foldl_gset_apply m.queue_tasks name
        (get_tasks_stat (qitems name)) q t (get_tasks_stat_keys_nodup _)
      by_cases hq : q ∈ rest
      · rw [if_pos hq, if_pos (List.mem_cons_of_mem _ hq)]
        cases hcount : countOf (get_tasks_stat (qitems q)) t with
        | some c => rfl
        | none =>
            show (get_tasks_stat (qitems name)).foldl
              (fun g2 tc => gset g2 (name, tc.1) ((tc.2 : Nat) : Int))
              m.queue_tasks (q, t) = m.queue_tasks (q, t)
            rw [hfold]
            by_cases hqn : q = name
            · subst hqn
              rw [if_pos rfl, hcount]
            · rw [if_neg hqn]
      · rw [if_neg hq]
        by_cases hqn : q = name
        · subst hqn
          rw [if_pos (List.mem_cons_self _ _)]
          show (get_tasks_stat (qitems q)).foldl
              (fun g2 tc => gset g2 (q, tc.1) ((tc.2 : Nat) : Int))
              m.queue_tasks (q, t)
            = match countOf (get_tasks_stat (qitems q)) t with
              | some c => some ((c : Nat) : Int)
              | none => m.queue_tasks (q, t)
          rw [hfold, if_pos rfl]
        · rw [if_neg (fun hmem => by
            rcases List.mem_cons.mp hmem with h1 | h1
            exacts [hqn h1, hq h1])]
          show (get_tasks_stat (qitems name)).foldl
              (fun g2 tc => gset g2 (name, tc.1) ((tc.2 : Nat) : Int))
              m.queue_tasks (q, t) = m.queue_tasks (q, t)
          rw [hfold, if_neg hqn]

/-- C5: after one queue sampling pass, every walked queue holds its newly
sampled size and every tallied pair holds its count, while every
previously published queue or queue-task series absent from this pass is
zeroed. -/
theorem spec_c5_stale_zeroing (m : Metrics) (aq : List (List String))
    (qlen : String → Nat) (qitems : String → List (Option String)) :
    (∀ q, q ∈ get_queue_names aq →
      (update_queues_metrics m aq qlen qitems).queue_size q
        = some ((qlen q : Nat) : Int))
    ∧ (∀ q, (m.queue_size q).isSome → q ∉ get_queue_names aq →
        (update_queues_metrics m aq qlen qitems).queue_size q = some 0)
    ∧ (∀ q t c, q ∈ get_queue_names aq →
        (t, c) ∈ get_tasks_stat (qitems q) →
        (update_queues_metrics m aq qlen qitems).queue_tasks (q, t)
          = some ((c : Nat) : Int))
    ∧ (∀ q t, (m.queue_tasks (q, t)).isSome →
        ¬(q ∈ get_queue_names aq
            ∧ t ∈ (get_tasks_stat (qitems q)).map Prod.fst) →
        (update_queues_metrics m aq qlen qitems).queue_tasks (q, t)
          = some 0) := by
  have hkq := update_queues_loop_kq qlen qitems (get_queue_names aq) m [] []
  have hkt := update_queues_loop_kt qlen qitems (get_queue_names aq) m [] []
  simp only [List.nil_append] at hkq hkt
  refine ⟨?_, ?_, ?_, ?_⟩
  · intro q hq
    show resetKnown
        (update_queues_loop qlen qitems (get_queue_names aq) m [] []).1.queue_size
        (update_queues_loop qlen qitems (get_queue_names aq) m [] []).2.1 q
      = some ((qlen q : Nat) : Int)
    simp only [resetKnown]
    rw [update_queues_loop_size, if_pos hq, hkq]
    simp [hq]
  · intro q hs hq
    show resetKnown
        (update_queues_loop qlen qitems (get_queue_names aq) m [] []).1.queue_size
        (update_queues_loop qlen qitems (get_queue_names aq) m [] []).2.1 q
      = some 0
    simp only [resetKnown]
    rw [update_queues_loop_size, if_neg hq, hkq]
    obtain ⟨v, hv⟩ := Option.isSome_iff_exists.mp hs
    rw [hv]
    simp [hq]
  · intro q t c hq hmem
    have hcount : countOf (get_tasks_stat (qitems q)) t = some c :=
      mem_countOf (get_tasks_stat_keys_nodup _) hmem
    show resetKnown
        (update_queues_loop qlen qitems (get_queue_names aq) m [] []).1.queue_tasks
        (update_queues_loop qlen qitems (get_queue_names aq) m [] []).2.2
        (q, t)
      = some ((c : Nat) : Int)
    simp only [resetKnown]
    rw [update_queues_loop_tasks, if_pos hq, hcount, hkt]
    have hin : (q, t) ∈ ((get_queue_names aq).map (fun n =>
        (get_tasks_stat (qitems n)).map (fun tc => (n, tc.1)))).flatten := by
      rw [List.mem_flatten]
      refine ⟨(get_tasks_stat (qitems q)).map (fun tc => (q, tc.1)), ?_, ?_⟩
      · exact List.mem_map.mpr ⟨q, hq, rfl⟩
      · exact List.mem_map.mpr ⟨(t, c), hmem, rfl⟩
    simp [hin]
  · intro q t hs hn
    have hnotin : (q, t) ∉ ((get_queue_names aq).map (fun n =>
        (get_tasks_stat (qitems n)).map (fun tc => (n, tc.1)))).flatten := by
      intro hmem
      rw [List.mem_flatten] at hmem
      obtain ⟨l, hl, hql⟩ := hmem
      obtain ⟨n, hn2, hleq⟩ := List.mem_map.mp hl
      rw [← hleq] at hql
      obtain ⟨tc, htc, hpair⟩ := List.mem_map.mp hql
      rw [Prod.mk.injEq] at hpair
      obtain ⟨hnq, htct⟩ := hpair
      subst hnq
      apply hn
      refine ⟨hn2, ?_⟩
      rw [← htct]
      exact List.mem_map.mpr ⟨tc, htc, rfl⟩
    show resetKnown
        (update_queues_loop qlen qitems (get_queue_names aq) m [] []).1.queue_tasks
        (update_queues_loop qlen qitems (get_queue_names aq) m [] []).2.2
        (q, t)
      = some 0
    simp only [resetKnown]
    rw [update_queues_loop_tasks, hkt]
    obtain ⟨v, hv⟩ := Option.isSome_iff_exists.mp hs
    by_cases hq : q ∈ get_queue_names aq
    · rw [if_pos hq]
      have hcount : countOf (get_tasks_stat (qitems q)) t = none := by
        rw [countOf_eq_none_iff]
        intro hmem
        exact hn ⟨hq, hmem⟩
      rw [hcount, hv]
      simp [hnotin]
    · rw [if_neg hq, hv]
      simp [hnotin]

/-- The queue surface of the C5 witness: a first pass published q1 at
size three with three tasks of type A and q2 at size zero. -/
def mW5 : Metrics :=
  { mEmpty with
    queue_size := fun q =>
      if q = "q1" then some 3 else if q = "q2" then some 0 else none
    queue_tasks := fun p => if p = ("q1", "A") then some 3 else none }

/-- C5 witness: a second pass over an emptied q1 with q2 gone zeroes the
q1 series and the stale q2 and (q1, A) series. -/
theorem spec_c5_witness :
    (update_queues_metrics mW5 [["q1"]] (fun _ => 0)
        (fun _ => [])).queue_size "q1" = some ((0 : Nat) : Int)
    ∧ (update_queues_metrics mW5 [["q1"]] (fun _ => 0)
        (fun _ => [])).queue_size "q2" = some 0
    ∧ (update_queues_metrics mW5 [["q1"]] (fun _ => 0)
        (fun _ => [])).queue_tasks ("q1", "A") = some 0 := by
  refine ⟨?_, ?_, ?_⟩
  · exact (spec_c5_stale_zeroing mW5 [["q1"]] (fun _ => 0)
      (fun _ => [])).1 "q1" (by decide)
  · exact (spec_c5_stale_zeroing mW5 [["q1"]] (fun _ => 0)
      (fun _ => [])).2.1 "q2" (by decide) (by decide)
  · exact (spec_c5_stale_zeroing mW5 [["q1"]] (fun _ => 0)
      (fun _ => [])).2.2.2 "q1" "A" (by decide) (by decide)
